import Mathlib

/-!
Verification of the Hyperband scheduler (`src/hyperband.py`) of
gifford-lab/pytorch-dl-utility against its natural-language specification.

The Python code is shallowly embedded: pure computations become Lean
functions, the filesystem and the external `Model`/`Config` collaborators
become an explicit environment record (`Hyperband.Env`), and the effectful
`run` method becomes a function from the environment to a trace of the
externally observable events (fit calls, sampling calls, state saves, the
final best link).  Floating point arithmetic on `math.e` is embedded as
exact real arithmetic with `Real.exp 1`; rewards returned by
`config.load_best_reward()` are embedded as rationals (an arbitrary
linearly ordered field of observed values), with the running best
initialised to `⊥ : WithBot ℚ` mirroring the negative float infinity start value.
-/

namespace Hyperband

/-- A hyperparameter mapping in Python insertion order.  Keys and values are
embedded as the strings that the percent-format `%s=%s` would render (value rendering by
`str` is injective on the values actually sampled and is dropped). -/
abbrev Params := List (String × String)

/-- One rendered `key=value` entry, the percent-format `%s=%s` of a pair from line 64 of
`hyperband.py`. -/
def renderKV (kv : String × String) : String := kv.1 ++ "=" ++ kv.2

/-- The comparison Python uses on strings: lexicographic on the sequences
of code points.  Stated on `String.data` so that it evaluates inside the
kernel; it is propositionally the order of `String`
(`String.le_iff_toList_le`). -/
def strLe (a b : String) : Prop := a.data ≤ b.data

instance : DecidableRel strLe := fun a b => inferInstanceAs (Decidable (a.data ≤ b.data))

/-- Line 64: `get_name` joins with commas the sorted list of rendered
`key=value` entries of the mapping.  Note that the *rendered entries* are sorted as
strings, not the keys.  Python `sorted` is the stable sort of its input;
it is embedded as `List.insertionSort`, which is extensionally the unique
stable sort for a total preorder (here stability is invisible anyway,
because tied strings are identical). -/
def getName (params : Params) : String :=
  String.intercalate "," ((params.map renderKV).insertionSort strLe)

/-- Python `d.update(other)`: values of keys already present in `d` are
overwritten in place (keeping their position), fresh keys of `other` are
appended in order. -/
def pyUpdate (d other : Params) : Params :=
  (d.map fun kv =>
    match other.lookup kv.1 with
    | some v => (kv.1, v)
    | none => kv) ++
  other.filter fun kv => (d.lookup kv.1).isNone

/-- A materialised `Config` object: lines 69-73 of `hyperband.py`.  The
`hb_path /` directory prefix of the stored name is path plumbing of the
external `Path` class and is dropped; `name` is the canonical part
`get_name(params)`. -/
structure Cfg where
  name : String
  params : Params
  model : String
  data : String
deriving DecidableEq, Repr

/-- What the external world answers for one `fit` call on one
configuration inside one round: the two `config.stopped_early.exists()`
checks (before line 87 and after line 96), and
`config.load_best_reward()` (line 92).  The per-round iteration budget
`n_iters` is a function of the bracket and round indices alone, so it is
absorbed into the indexing of the oracle. -/
structure Outcome where
  stoppedBefore : Bool
  stoppedAfter : Bool
  reward : ℚ
  epoch : ℕ

/-- One entry of the per-round `results` list: `dict(reward=..., config=...,
epoch=...)` from line 94. -/
structure Info where
  reward : ℚ
  config : Cfg
  epoch : ℕ
deriving DecidableEq

/-- The running global best, `best_info`.  Line 65 initialises it to
a record whose reward is negative float infinity: the reward starts at `⊥` and the other two
fields are absent. -/
structure Best where
  reward : WithBot ℚ
  config : Option Cfg
  epoch : Option ℕ
deriving DecidableEq

/-- Line 65: `best_info` starts as a record holding only the reward, set to
negative float infinity. -/
def initBest : Best := ⟨⊥, none, none⟩

/-- Line 95: `best_info` becomes the maximum of itself and `info` under the
reward key.
Python `max` keeps its first argument unless a later one is strictly
greater, so a tie keeps the earlier record. -/
def stepBest (b : Best) (info : Info) : Best :=
  if b.reward < (info.reward : WithBot ℚ) then ⟨info.reward, some info.config, some info.epoch⟩
  else b

/-- Observable outcome of the inner loop of one round (lines 85-98):
the updated running best, the recorded `results`, and — as the trace of
consumed budget — the list of configurations actually passed to
`Model(...).fit` and their number. -/
structure RoundOut where
  best : Best
  results : List Info
  fitCalls : ℕ
  trained : List Cfg
deriving DecidableEq

/-- Lines 85-98: iterate over the configurations of the current `T`.  A
configuration whose early-stop flag already exists is skipped entirely;
otherwise it is fit, the running best is updated with its reward, and it is
appended to `results` unless its early-stop flag exists after the fit. -/
def trainConfigs (F : Cfg → Outcome) : List Cfg → Best → RoundOut
  | [], b => ⟨b, [], 0, []⟩
  | c :: rest, b =>
    let o := F c
    if o.stoppedBefore then trainConfigs F rest b
    else
      let info : Info := ⟨o.reward, c, o.epoch⟩
      let out := trainConfigs F rest (stepBest b info)
      { out with
        results := (if o.stoppedAfter then [] else [info]) ++ out.results
        fitCalls := out.fitCalls + 1
        trained := c :: out.trained }

/-- The descending-reward preorder used by line 100:
descending comparison of the reward key. -/
def rewardGe (a b : Info) : Prop := b.reward ≤ a.reward

instance : DecidableRel rewardGe := fun a b => inferInstanceAs (Decidable (b.reward ≤ a.reward))

/-- Line 100: `results` sorted by the reward key, descending.
Python `sorted` is stable; it is embedded as the stable
`List.insertionSort`, descending on the reward key. -/
def sortResults (rs : List Info) : List Info :=
  rs.insertionSort rewardGe

/-- Line 101: the configuration field of each of the first `k` entries of the
sorted results. -/
def selectTop (k : ℕ) (rs : List Info) : List Cfg :=
  ((sortResults rs).take k).map (·.config)

noncomputable section Budget

/-- Line 34: `self.eta = math.e`.  The float constant is embedded as the
exact real number. -/
def eta : ℝ := Real.exp 1

/-- Python `int(x)` on a float: truncation toward zero. -/
def pyInt (x : ℝ) : ℤ := if 0 ≤ x then ⌊x⌋ else ⌈x⌉

/-- Line 36: `logeta = lambda x: math.log(x) / math.log(self.eta)`. -/
def logeta (x : ℝ) : ℝ := Real.log x / Real.log eta

/-- Line 37: `self.s_max = int(logeta(self.max_iter))`. -/
def sMaxZ (m : ℕ) : ℤ := pyInt (logeta m)

/-- The bracket index bound as a natural number; for `m ≥ 1` it coincides
with `sMaxZ m`, which is then nonnegative. -/
def sMax (m : ℕ) : ℕ := (sMaxZ m).toNat

/-- Line 38: `self.B = (self.s_max + 1) * self.max_iter`. -/
def B (m : ℕ) : ℕ := (sMax m + 1) * m

/-- Line 57: `n = int(math.ceil(self.B / self.max_iter / (s + 1) *
self.eta ** s))`; the divisions are Python 3 true division, and `int` of
the nonnegative `math.ceil` result is the ceiling itself. -/
def nInitZ (m s : ℕ) : ℤ := ⌈(B m : ℝ) / (m : ℝ) / ((s : ℝ) + 1) * eta ^ s⌉

/-- The initial population size of bracket `s` as a natural number (used
as the length of `range(n)` on line 60). -/
def nInitN (m s : ℕ) : ℕ := (nInitZ m s).toNat

/-- Line 77: `r = self.max_iter * self.eta ** (-s)`. -/
def rInit (m s : ℕ) : ℝ := (m : ℝ) * eta ^ (-(s : ℤ))

/-- Line 82: `n_configs = n * self.eta ** (-i)`. -/
def nConfigs (n i : ℕ) : ℝ := (n : ℝ) * eta ^ (-(i : ℤ))

/-- Line 101: `int(n_configs / self.eta)`, the survivor count of round `i`
in a bracket whose materialised population has size `n`. -/
def survCount (n i : ℕ) : ℕ := (pyInt (nConfigs n i / eta)).toNat

end Budget

/-- Lines 68-73: materialise one sampled parameter set into a saved
`Config`: the canonical name is computed from the sampled `params`
*before* `params.update(self.config_dict)` merges in the fixed
hyperparameter defaults, and the model and data paths of the run are
attached at `t.save(...)`. -/
def materialize (configDict : Params) (model data : String) (p : Params) : Cfg :=
  { name := getName p
    params := pyUpdate p configDict
    model := model
    data := data }

/-- The persisted search state in memory: the mapping from bracket index
to the list of sampled parameter sets for that bracket
(`state[s] = [...]`, lines 54-60). -/
abbrev SearchState := List (ℕ × List Params)

/-- Modelled from the spec: the missing `src.util.save_json` serialises the
state as a JSON object, so the integer bracket keys become their decimal
string form on disk (spec section 6: mapping from stringified bracket
index to an ordered list of hyperparameter-mapping objects). -/
def encodeState (st : SearchState) : List (String × List Params) :=
  st.map fun kv => (Nat.repr kv.1, kv.2)

/-- Line 132: the key conversion `int(k)` applied to a serialised bracket
index.  On the canonical decimal keys the program itself writes this is
exact; the error path of Python `int` on unparsable text is outside the
embedded domain. -/
def pyIntKey (s : String) : ℕ := s.toNat?.getD 0

/-- Line 132: `{ int(k): v for k, v in load_json(self.state_path).items() }`. -/
def decodeState (raw : List (String × List Params)) : SearchState :=
  raw.map fun kv => (pyIntKey kv.1, kv.2)

/-- The external world of one `run` invocation: the filesystem checks and
the `Model`/`Config` collaborators.  `sample s j` is the value of the
`j`-th `Model.get_params(config)` draw for bracket `s` (line 60);
`fit s i c` answers the flag checks and the best reward read-back for
configuration `c` in round `i` of bracket `s` (lines 87-96). -/
structure Env where
  bestExists : Bool
  savedRaw : Option (List (String × List Params))
  sample : ℕ → ℕ → Params
  fit : ℕ → ℕ → Cfg → Outcome

/-- Lines 130-133: `load_state` returns the decoded state when the state
file exists and `None` otherwise. -/
def loadState (env : Env) : Option SearchState :=
  env.savedRaw.map decodeState

section RunDefs

/-- Lines 55-60: for `s in range(self.s_max, -1, -1)` generate
`n(s)` freshly sampled parameter sets for bracket `s`. -/
noncomputable def genState (env : Env) (m : ℕ) : SearchState :=
  ((List.range (sMax m + 1)).reverse).map fun s =>
    (s, (List.range (nInitN m s)).map (env.sample s))

/-- The number of `Model.get_params` calls the generation loop makes:
one per sampled parameter set. -/
noncomputable def sampleCount (m : ℕ) : ℕ :=
  (((List.range (sMax m + 1)).reverse).map fun s => nInitN m s).sum

/-- Lines 49-62 (state materialisation): the state used by the sweep,
together with the number of sampling calls made and the list of state
snapshots written to disk.  `if state:` is Python truthiness, so a loaded
*empty* mapping falls through to generation exactly like a missing file. -/
noncomputable def step2 (env : Env) (m : ℕ) :
    SearchState × ℕ × List SearchState :=
  match loadState env with
  | some st =>
    if st = [] then (genState env m, sampleCount m, [genState env m])
    else (st, 0, [])
  | none => (genState env m, sampleCount m, [genState env m])

/-- One elimination round (lines 82-101) as a transformation of the pair
(running best, active configuration list): train the active
configurations, then keep the best `int(n_configs / eta)` of the recorded
results as the next `T`. -/
noncomputable def bracketStep (F : ℕ → Cfg → Outcome) (n i : ℕ)
    (st : Best × List Cfg) : Best × List Cfg :=
  (((trainConfigs (F i) st.2 st.1)).best,
    selectTop (survCount n i) (trainConfigs (F i) st.2 st.1).results)

/-- The round-by-round trajectory of a bracket: `bracketT F n init i` is
the (running best, `T`) pair seen at the *start* of round `i`, with
`init` the state at round `0`.  `n` is `len(T)` at bracket entry
(line 74) and stays fixed for the whole bracket. -/
noncomputable def bracketT (F : ℕ → Cfg → Outcome) (n : ℕ)
    (init : Best × List Cfg) : ℕ → Best × List Cfg
  | 0 => init
  | i + 1 => bracketStep F n i (bracketT F n init i)

/-- The cumulative number of `fit` calls made by rounds `0 .. i-1` of a
bracket. -/
noncomputable def bracketFits (F : ℕ → Cfg → Outcome) (n : ℕ)
    (init : Best × List Cfg) : ℕ → ℕ
  | 0 => 0
  | i + 1 =>
    bracketFits F n init i +
      (trainConfigs (F i) (bracketT F n init i).2 (bracketT F n init i).1).fitCalls

/-- Lines 66-101: sweep the listed brackets in order, carrying the running
best and the cumulative `fit`-call count.  Entering bracket `s`
materialises `state[s]` into the full configuration list `T` and runs its
`s + 1` rounds. -/
noncomputable def sweepGo (env : Env) (configDict : Params) (model data : String)
    (st : SearchState) : List ℕ → Best × ℕ → Best × ℕ
  | [], acc => acc
  | s :: rest, acc =>
    sweepGo env configDict model data st rest
      ((bracketT (env.fit s) (((st.lookup s).getD []).map (materialize configDict model data)).length
          (acc.1, ((st.lookup s).getD []).map (materialize configDict model data)) (s + 1)).1,
        acc.2 +
          bracketFits (env.fit s) (((st.lookup s).getD []).map (materialize configDict model data)).length
            (acc.1, ((st.lookup s).getD []).map (materialize configDict model data)) (s + 1))

/-- The final (best, fit count) of the full bracket sweep, brackets in
decreasing index order (`range(self.s_max, -1, -1)`, line 66). -/
noncomputable def sweepResult (m : ℕ) (configDict : Params) (model data : String)
    (env : Env) : Best × ℕ :=
  sweepGo env configDict model data (step2 env m).1
    ((List.range (sMax m + 1)).reverse) (initBest, 0)

/-- The externally observable trace of one `run` invocation. -/
structure RunTrace where
  state : SearchState
  sampleCalls : ℕ
  saves : List SearchState
  fitCalls : ℕ
  best : Best
  links : List (Option String)
deriving DecidableEq

/-- Lines 40-107, `Hyperband.run`: the best-marker short-circuit, state
materialisation, the bracket sweep, and the final `self.link_best(config.name)`.
The linked name is the name of the best configuration; the `none` case of the
option records that a run whose best was never updated stops with a
`KeyError` before linking. -/
noncomputable def hyperbandRun (m : ℕ) (configDict : Params) (model data : String)
    (env : Env) : RunTrace :=
  if env.bestExists then
    { state := [], sampleCalls := 0, saves := [], fitCalls := 0
      best := initBest, links := [] }
  else
    { state := (step2 env m).1
      sampleCalls := (step2 env m).2.1
      saves := (step2 env m).2.2
      fitCalls := (sweepResult m configDict model data env).2
      best := (sweepResult m configDict model data env).1
      links := [(sweepResult m configDict model data env).1.config.map (fun c => c.name)] }

end RunDefs

/-- Modelled from the spec: the argument-parsing and `Path` layer
(`train.get_train_args`, `src.util`) is not under `src/`, so the run
arguments consumed by `Hyperband.__init__` (lines 15-28) are modelled per
spec section 4.1 — an argument is unset when it was not supplied, and
Python truthiness additionally makes a zero `train_epoch` count as
unset. -/
structure InitArgs where
  modelPath : Option String
  dataPath : Option String
  trainEpoch : Option ℕ
deriving DecidableEq

/-- The persisted scheduler configuration file (spec section 6):
`{model: path, data: path, train_epoch: int, vars: {...}}`. -/
structure PersistedHBConfig where
  model : String
  data : String
  trainEpoch : ℕ
  vars : Params

/-- Which of the three `assert` statements on lines 26-28 fails. -/
inductive InitError where
  | missingModel
  | missingData
  | missingEpoch
deriving DecidableEq

/-- The state a successful construction hands to `run`. -/
structure InitOut where
  args : InitArgs
  configDict : Params
  maxIter : ℕ
deriving DecidableEq

/-- Python truthiness of `args.train_epoch`: unset (`None`) and `0` are
both falsy. -/
def epochTruthy : Option ℕ → Bool
  | none => false
  | some n => n != 0

/-- Lines 19-23: when the persisted scheduler configuration exists, its
`model`, `data` and `train_epoch` fields overwrite the supplied arguments
unconditionally. -/
def mergedArgs (args : InitArgs) (persisted : Option PersistedHBConfig) : InitArgs :=
  match persisted with
  | some c => ⟨some c.model, some c.data, some c.trainEpoch⟩
  | none => args

/-- Line 24: `config_dict.update` with the persisted `vars` — the persisted defaults
are merged into the supplied ones, persisted values winning conflicts. -/
def mergedDict (configDict : Params) (persisted : Option PersistedHBConfig) : Params :=
  match persisted with
  | some c => pyUpdate configDict c.vars
  | none => configDict

/-- Lines 15-38, `Hyperband.__init__`: apply the persisted overrides, then
run the three `assert` statements of lines 26-28 in order.  A failing
assertion yields only the error: no derived state is produced and no work
has been started. -/
def hyperbandInit (args : InitArgs) (configDict : Params)
    (persisted : Option PersistedHBConfig) : Except InitError InitOut :=
  if (mergedArgs args persisted).modelPath.isNone then .error .missingModel
  else if (mergedArgs args persisted).dataPath.isNone then .error .missingData
  else if !(epochTruthy (mergedArgs args persisted).trainEpoch) then .error .missingEpoch
  else .ok ⟨mergedArgs args persisted, mergedDict configDict persisted,
    (mergedArgs args persisted).trainEpoch.getD 0⟩

/-- Specification-side canonical name for claim C8: all *keys* sorted
alphabetically, each entry rendered as `key=value`, joined by commas. -/
def specCanonicalName (params : Params) : String :=
  String.intercalate ","
    ((params.insertionSort (fun a b : String × String => strLe a.1 b.1)).map renderKV)

/-- The decimal digit characters of `n`, most significant first; the
structurally recursive unfolding of `Nat.toDigits 10`. -/
def decChars (n : ℕ) : List Char :=
  if _h : n < 10 then [Nat.digitChar n]
  else decChars (n / 10) ++ [Nat.digitChar (n % 10)]
decreasing_by
  exact Nat.div_lt_self (by omega) (by omega)

instance : IsTrans String strLe :=
  ⟨fun _ _ _ hab hbc => le_trans (α := List Char) hab hbc⟩

instance : IsTotal String strLe :=
  ⟨fun a b => le_total (α := List Char) a.data b.data⟩

instance : IsAntisymm String strLe :=
  ⟨fun a b hab hba => by
    have h := le_antisymm (α := List Char) hab hba
    cases a; cases b; exact congrArg String.mk h⟩

instance : IsTrans Info rewardGe :=
  ⟨fun _ _ _ hab hbc => le_trans hbc hab⟩

instance : IsTotal Info rewardGe :=
  ⟨fun a b => (le_total b.reward a.reward).imp id id⟩

/-- Looking up a key in the overwrite half of `pyUpdate`: the map keeps
every key of `d` in place and only replaces the value when `other` also
binds the key. -/
theorem lookup_map_overwrite (d other : Params) (k : String) :
    ((d.map fun kv =>
        match other.lookup kv.1 with
        | some v => (kv.1, v)
        | none => kv).lookup k) =
      (d.lookup k).map fun v => (other.lookup k).getD v := by
  induction d with
  | nil => rfl
  | cons kv d ih =>
    obtain ⟨k₁, v₁⟩ := kv
    by_cases hk : k = k₁
    · subst hk
      cases ho : other.lookup k <;>
        simp [List.lookup_cons, ho, ih]
    · have hk' : (k == k₁) = false := by simpa using hk
      cases ho : other.lookup k₁ <;>
        simp [List.lookup_cons, ho, hk', ih]

/-- Filtering by a predicate on the key alone does not change the lookup
of a key the predicate accepts. -/
theorem lookup_filter_key {β : Type} (q : String → Bool) (l : List (String × β))
    (k : String) (hq : q k = true) :
    ((l.filter fun kv => q kv.1).lookup k) = l.lookup k := by
  induction l with
  | nil => rfl
  | cons kv l ih =>
    obtain ⟨k₁, v₁⟩ := kv
    by_cases hk : k = k₁
    · subst hk
      simp [List.filter_cons, hq, List.lookup_cons, ih]
    · have hk' : (k == k₁) = false := by simpa using hk
      cases hqv : q k₁ <;>
        simp [List.filter_cons, hqv, List.lookup_cons, hk', ih]

/-- Python `d.update(other)` resolves every key bound by `other` to the
value of `other`. -/
theorem lookup_pyUpdate (d other : Params) (k : String)
    (ho : (other.lookup k).isSome) :
    (pyUpdate d other).lookup k = other.lookup k := by
  unfold pyUpdate
  rw [List.lookup_append, lookup_map_overwrite]
  cases hd : d.lookup k with
  | some v =>
    obtain ⟨w, hw⟩ := Option.isSome_iff_exists.mp ho
    simp [hw]
  | none =>
    simpa using lookup_filter_key (fun key => (d.lookup key).isNone) other k (by simp [hd])

/-- C7: for any two hyperparameter mappings containing identical key-value
sets (differing only in insertion order), the canonical naming function
produces the identical name; in particular `{"a":1,"b":2}` and
`{"b":2,"a":1}` both canonicalise to `"a=1,b=2"`. -/
theorem claim_name_permutation_invariant (l₁ l₂ : Params) (h : List.Perm l₁ l₂) :
    getName l₁ = getName l₂ ∧
      getName [("a", "1"), ("b", "2")] = "a=1,b=2" ∧
      getName [("b", "2"), ("a", "1")] = "a=1,b=2" := by
  refine ⟨?_, by decide, by decide⟩
  unfold getName
  congr 1
  refine List.eq_of_perm_of_sorted (r := strLe) ?_ ?_ ?_
  · exact ((List.perm_insertionSort _ _).trans (h.map renderKV)).trans
      (List.perm_insertionSort _ _).symm
  · exact List.sorted_insertionSort _ _
  · exact List.sorted_insertionSort _ _

/-- Witness for C7 at the example of the claim: the two insertion orders of
`{"a":1,"b":2}` canonicalise identically. -/
theorem claim_name_permutation_invariant_witness :
    getName [("a", "1"), ("b", "2")] = getName [("b", "2"), ("a", "1")] :=
  (claim_name_permutation_invariant [("a", "1"), ("b", "2")] [("b", "2"), ("a", "1")]
    (by decide)).1

/-- Counterexample to C8: the code sorts the rendered `key=value` strings,
not the keys.  For the mapping `{"a":"0","a1":"0"}` the rendered entries
sort as `"a1=0" < "a=0"` (because the code point of the digit one is below
that of the equals sign), so the produced name is not in ascending key
order. -/
theorem claim_name_not_sorted_by_keys :
    getName [("a", "0"), ("a1", "0")] = "a1=0,a=0" ∧
      specCanonicalName [("a", "0"), ("a1", "0")] = "a=0,a1=0" ∧
      getName [("a", "0"), ("a1", "0")] ≠ specCanonicalName [("a", "0"), ("a1", "0")] :=
  ⟨by decide, by decide, by decide⟩

/-- C8 (amended): for every hyperparameter mapping, the canonical name is
the serialization in which each entry is rendered as `key=value` and the
*rendered entry strings* are sorted lexicographically ascending, joined by
commas.  (This agrees with ascending key order except when one key extends
another by a character whose code point is below that of the equals sign,
as in the counterexample.) -/
theorem claim_name_is_sorted_rendered_entries (params : Params) :
    getName params = String.intercalate "," ((params.map renderKV).insertionSort strLe) ∧
      List.Sorted strLe ((params.map renderKV).insertionSort strLe) ∧
      List.Perm ((params.map renderKV).insertionSort strLe) (params.map renderKV) :=
  ⟨rfl, List.sorted_insertionSort _ _, List.perm_insertionSort _ _⟩

/-- C9: a persisted scheduler configuration overrides the supplied model
path, data path and max-epoch; persisted hyperparameter defaults win
conflicts against supplied ones; and if the model path, data path or
max-epoch is still unset after the merge, construction yields only an
assertion error (no output state is produced), while otherwise it succeeds
with exactly the merged values. -/
theorem claim_init_merge_and_preconditions :
    (∀ args c, mergedArgs args (some c) = ⟨some c.model, some c.data, some c.trainEpoch⟩) ∧
      (∀ configDict c k, ((c.vars.lookup k).isSome) →
        (mergedDict configDict (some c)).lookup k = c.vars.lookup k) ∧
      (∀ args configDict persisted,
        ((mergedArgs args persisted).modelPath.isNone ∨
          (mergedArgs args persisted).dataPath.isNone ∨
          epochTruthy (mergedArgs args persisted).trainEpoch = false) →
        ∃ e, hyperbandInit args configDict persisted = .error e) ∧
      (∀ args configDict persisted,
        (mergedArgs args persisted).modelPath.isSome →
        (mergedArgs args persisted).dataPath.isSome →
        epochTruthy (mergedArgs args persisted).trainEpoch = true →
        hyperbandInit args configDict persisted =
          .ok ⟨mergedArgs args persisted, mergedDict configDict persisted,
            (mergedArgs args persisted).trainEpoch.getD 0⟩) := by
  refine ⟨fun _ _ => rfl, fun configDict c k hk => lookup_pyUpdate _ _ _ hk, ?_, ?_⟩
  · intro args configDict persisted h
    unfold hyperbandInit
    rcases h with h | h | h
    · exact ⟨.missingModel, by simp [h]⟩
    · by_cases hm : (mergedArgs args persisted).modelPath.isNone
      · exact ⟨.missingModel, by simp [hm]⟩
      · exact ⟨.missingData, by simp [hm, h]⟩
    · by_cases hm : (mergedArgs args persisted).modelPath.isNone
      · exact ⟨.missingModel, by simp [hm]⟩
      · by_cases hd : (mergedArgs args persisted).dataPath.isNone
        · exact ⟨.missingData, by simp [hm, hd]⟩
        · exact ⟨.missingEpoch, by simp [hm, hd, h]⟩
  · intro args configDict persisted hm hd he
    have hm' : (mergedArgs args persisted).modelPath.isNone = false := by
      cases hmp : (mergedArgs args persisted).modelPath <;> simp_all
    have hd' : (mergedArgs args persisted).dataPath.isNone = false := by
      cases hdp : (mergedArgs args persisted).dataPath <;> simp_all
    simp [hyperbandInit, hm', hd', he]

/-- Witness for C9: with no persisted file and no supplied arguments the
construction fails with an assertion error. -/
theorem claim_init_merge_and_preconditions_witness :
    ∃ e, hyperbandInit ⟨none, none, none⟩ [] none = .error e :=
  claim_init_merge_and_preconditions.2.2.1 ⟨none, none, none⟩ [] none (Or.inl rfl)

theorem stepBest_reward_le (b : Best) (i : Info) : b.reward ≤ (stepBest b i).reward := by
  unfold stepBest
  split
  · exact le_of_lt (by assumption)
  · exact le_refl _

theorem reward_le_stepBest (b : Best) (i : Info) :
    (i.reward : WithBot ℚ) ≤ (stepBest b i).reward := by
  unfold stepBest
  split
  · exact le_refl _
  · exact le_of_not_lt (by assumption)

theorem trainConfigs_best_mono (F : Cfg → Outcome) (T : List Cfg) :
    ∀ b : Best, b.reward ≤ (trainConfigs F T b).best.reward := by
  induction T with
  | nil => exact fun b => le_refl _
  | cons c rest ih =>
    intro b
    cases h : (F c).stoppedBefore
    · simpa [trainConfigs, h] using
        le_trans (stepBest_reward_le b ⟨(F c).reward, c, (F c).epoch⟩) (ih _)
    · simpa [trainConfigs, h] using ih b

theorem trainConfigs_trained_eq (F : Cfg → Outcome) (T : List Cfg) :
    ∀ b : Best, (trainConfigs F T b).trained = T.filter fun c => !(F c).stoppedBefore := by
  induction T with
  | nil => exact fun _ => rfl
  | cons c rest ih =>
    intro b
    cases h : (F c).stoppedBefore <;>
      simp [trainConfigs, h, List.filter_cons, ih]

theorem trainConfigs_fitCalls_eq (F : Cfg → Outcome) (T : List Cfg) :
    ∀ b : Best,
      (trainConfigs F T b).fitCalls = (T.filter fun c => !(F c).stoppedBefore).length := by
  induction T with
  | nil => exact fun _ => rfl
  | cons c rest ih =>
    intro b
    cases h : (F c).stoppedBefore <;>
      simp [trainConfigs, h, List.filter_cons, ih]

theorem trainConfigs_results_mem (F : Cfg → Outcome) (T : List Cfg) :
    ∀ (b : Best) (r : Info), r ∈ (trainConfigs F T b).results →
      r.config ∈ T ∧ (F r.config).stoppedBefore = false ∧
        (F r.config).stoppedAfter = false ∧
        r = ⟨(F r.config).reward, r.config, (F r.config).epoch⟩ := by
  induction T with
  | nil => intro b r hr; simp [trainConfigs] at hr
  | cons c rest ih =>
    intro b r hr
    cases h : (F c).stoppedBefore
    · simp only [trainConfigs, h] at hr
      rcases List.mem_append.mp hr with h₁ | h₂
      · cases ha : (F c).stoppedAfter
        · rw [if_neg (by simp [ha])] at h₁
          obtain rfl := List.mem_singleton.mp h₁
          exact ⟨List.mem_cons_self c rest, h, ha, rfl⟩
        · rw [if_pos (by simp [ha])] at h₁
          exact absurd h₁ (List.not_mem_nil r)
      · obtain ⟨hmem, h₁, h₂', h₃⟩ := ih _ r h₂
        exact ⟨List.mem_cons_of_mem c hmem, h₁, h₂', h₃⟩
    · simp only [trainConfigs, h] at hr
      obtain ⟨hmem, h₁, h₂', h₃⟩ := ih b r hr
      exact ⟨List.mem_cons_of_mem c hmem, h₁, h₂', h₃⟩

theorem trainConfigs_reward_le_best (F : Cfg → Outcome) (T : List Cfg) :
    ∀ (b : Best) (c : Cfg), c ∈ T → (F c).stoppedBefore = false →
      ((F c).reward : WithBot ℚ) ≤ (trainConfigs F T b).best.reward := by
  induction T with
  | nil => intro b c hc; exact absurd hc (List.not_mem_nil c)
  | cons c' rest ih =>
    intro b c hc hb
    rcases List.mem_cons.mp hc with rfl | hc'
    · simpa [trainConfigs, hb] using
        le_trans (reward_le_stepBest b ⟨(F c).reward, c, (F c).epoch⟩)
          (trainConfigs_best_mono F rest _)
    · cases h' : (F c').stoppedBefore
      · simpa [trainConfigs, h'] using ih _ c hc' hb
      · simpa [trainConfigs, h'] using ih b c hc' hb

theorem mem_selectTop (k : ℕ) (rs : List Info) (c : Cfg) (hc : c ∈ selectTop k rs) :
    ∃ r ∈ rs, r.config = c := by
  unfold selectTop sortResults at hc
  obtain ⟨r, hr, rfl⟩ := List.mem_map.mp hc
  exact ⟨r, (List.mem_insertionSort rewardGe).mp (List.mem_of_mem_take hr), rfl⟩

/-- C3: a configuration whose early-stop flag exists before its fit call is
skipped without consuming budget or recording a result; one whose flag
exists after the fit still pushes its reward into the global best but is
excluded from the survivor candidates, hence absent from the `T` of the
next round no matter how its reward would rank. -/
theorem claim_early_stop_skip_and_exclusion (F : Cfg → Outcome) (T : List Cfg) (b : Best) :
    ((trainConfigs F T b).trained = T.filter fun c => !(F c).stoppedBefore) ∧
      ((trainConfigs F T b).fitCalls = (T.filter fun c => !(F c).stoppedBefore).length) ∧
      (∀ r ∈ (trainConfigs F T b).results,
        r.config ∈ T ∧ (F r.config).stoppedBefore = false ∧
          (F r.config).stoppedAfter = false) ∧
      (∀ c ∈ T, (F c).stoppedBefore = false →
        ((F c).reward : WithBot ℚ) ≤ (trainConfigs F T b).best.reward) ∧
      (∀ (k : ℕ) (c : Cfg), (F c).stoppedAfter = true →
        c ∉ selectTop k (trainConfigs F T b).results) ∧
      (∀ (Ffam : ℕ → Cfg → Outcome) (n : ℕ) (init : Best × List Cfg) (i : ℕ) (c : Cfg),
        (Ffam i c).stoppedAfter = true → c ∉ (bracketT Ffam n init (i + 1)).2) := by
  refine ⟨trainConfigs_trained_eq F T b, trainConfigs_fitCalls_eq F T b, ?_, ?_, ?_, ?_⟩
  · intro r hr
    obtain ⟨hmem, h₁, h₂, _⟩ := trainConfigs_results_mem F T b r hr
    exact ⟨hmem, h₁, h₂⟩
  · exact fun c hc hb => trainConfigs_reward_le_best F T b c hc hb
  · intro k c ha hc
    obtain ⟨r, hr, rfl⟩ := mem_selectTop k _ c hc
    obtain ⟨-, -, h₂, -⟩ := trainConfigs_results_mem F T b r hr
    exact absurd h₂ (by simp [ha])
  · intro Ffam n init i c ha hc
    obtain ⟨r, hr, rfl⟩ := mem_selectTop _ _ c hc
    obtain ⟨-, -, h₂, -⟩ :=
      trainConfigs_results_mem (Ffam i) (bracketT Ffam n init i).2 (bracketT Ffam n init i).1 r hr
    exact absurd h₂ (by simp [ha])

/-- Witness for C3 at a one-element round in which the configuration stops
early before training: nothing is trained. -/
theorem claim_early_stop_skip_and_exclusion_witness :
    (trainConfigs (fun _ => ⟨true, true, 0, 0⟩) [⟨"c", [], "m", "d"⟩] initBest).trained = [] :=
  (claim_early_stop_skip_and_exclusion (fun _ => ⟨true, true, 0, 0⟩)
      [⟨"c", [], "m", "d"⟩] initBest).1.trans (by decide)

/-- C4: the global best record starts at reward negative infinity, its
reward never decreases, an update replaces it only on a strictly greater
reward (ties keep the earliest record), and a completed run finalises it
exactly once, linking the winning configuration at the very end of the
sweep. -/
theorem claim_best_record_lifecycle :
    initBest.reward = ⊥ ∧
      (∀ (b : Best) (i : Info), b.reward ≤ (stepBest b i).reward) ∧
      (∀ (b : Best) (i : Info), ¬ b.reward < (i.reward : WithBot ℚ) → stepBest b i = b) ∧
      (∀ (b : Best) (i : Info), b.reward < (i.reward : WithBot ℚ) →
        stepBest b i = ⟨i.reward, some i.config, some i.epoch⟩) ∧
      (∀ (F : Cfg → Outcome) (T : List Cfg) (b : Best),
        b.reward ≤ (trainConfigs F T b).best.reward) ∧
      (∀ (F : ℕ → Cfg → Outcome) (n : ℕ) (init : Best × List Cfg) (i : ℕ),
        init.1.reward ≤ (bracketT F n init i).1.reward) ∧
      (∀ env configDict model data st bs (acc : Best × ℕ),
        acc.1.reward ≤ (sweepGo env configDict model data st bs acc).1.reward) ∧
      (∀ m configDict model data env, env.bestExists = false →
        (hyperbandRun m configDict model data env).links =
          [(sweepResult m configDict model data env).1.config.map fun c => c.name]) := by
  have hbr : ∀ (F : ℕ → Cfg → Outcome) (n : ℕ) (init : Best × List Cfg) (i : ℕ),
      init.1.reward ≤ (bracketT F n init i).1.reward := by
    intro F n init i
    induction i with
    | zero => exact le_refl _
    | succ i ih =>
      exact le_trans ih (trainConfigs_best_mono (F i) (bracketT F n init i).2 _)
  refine ⟨rfl, stepBest_reward_le, fun b i h => if_neg h, fun b i h => if_pos h,
    fun F T b => trainConfigs_best_mono F T b, hbr, ?_, ?_⟩
  · intro env configDict model data st bs
    induction bs with
    | nil => exact fun acc => le_refl _
    | cons s rest ih =>
      intro acc
      refine le_trans ?_ (ih _)
      exact hbr (env.fit s)
        (((st.lookup s).getD []).map (materialize configDict model data)).length
        (acc.1, ((st.lookup s).getD []).map (materialize configDict model data)) (s + 1)
  · intro m configDict model data env h
    simp [hyperbandRun, h]

/-- Witness for C4: the initial best record has reward bottom. -/
theorem claim_best_record_lifecycle_witness : initBest.reward = ⊥ :=
  claim_best_record_lifecycle.1

theorem sortResults_perm (rs : List Info) : List.Perm (sortResults rs) rs :=
  List.perm_insertionSort rewardGe rs

theorem sortResults_sorted (rs : List Info) : List.Sorted rewardGe (sortResults rs) :=
  List.sorted_insertionSort rewardGe rs

/-- Stability of the per-round sort: inside one reward class the recorded
order is kept. -/
theorem sortResults_filter_reward (rs : List Info) (v : ℚ) :
    (sortResults rs).filter (fun r => r.reward == v) =
      rs.filter (fun r => r.reward == v) := by
  have hpair : (rs.filter fun r => r.reward == v).Pairwise rewardGe := by
    refine List.pairwise_of_forall_mem_list ?_
    intro a ha b hb
    have ha' : a.reward = v := by simpa using (List.mem_filter.mp ha).2
    have hb' : b.reward = v := by simpa using (List.mem_filter.mp hb).2
    unfold rewardGe
    rw [ha', hb']
  have h2 : List.Sublist (rs.filter fun r => r.reward == v) (sortResults rs) :=
    List.sublist_insertionSort hpair (List.filter_sublist rs)
  have h3 : List.Perm ((sortResults rs).filter fun r => r.reward == v)
      (rs.filter fun r => r.reward == v) := (sortResults_perm rs).filter _
  have h4 : List.Sublist (rs.filter fun r => r.reward == v)
      ((sortResults rs).filter fun r => r.reward == v) := by
    have h5 := h2.filter (fun r => r.reward == v)
    rwa [List.filter_eq_self.mpr (fun a ha => (List.mem_filter.mp ha).2)] at h5
  exact (h4.eq_of_length h3.length_eq.symm).symm

theorem length_selectTop (k : ℕ) (rs : List Info) :
    (selectTop k rs).length = min k rs.length := by
  unfold selectTop sortResults
  simp

theorem survCount_eq_floor (n i : ℕ) : (survCount n i : ℤ) = ⌊nConfigs n i / eta⌋ := by
  have h0 : (0 : ℝ) ≤ nConfigs n i / eta := by
    apply div_nonneg
    · exact mul_nonneg (Nat.cast_nonneg n) (le_of_lt (zpow_pos (Real.exp_pos 1) _))
    · exact le_of_lt (Real.exp_pos 1)
  unfold survCount pyInt
  rw [if_pos h0]
  exact Int.toNat_of_nonneg (Int.floor_nonneg.mpr h0)

/-- C1: after each round of each bracket, the next `T` is exactly the top
`floor(n_configs / eta)` round results in descending reward order, clipped
to the number of non-early-stopped candidates actually recorded, with
reward ties kept in recorded order; a zero cutoff empties `T` and an empty
`T` propagates as a no-op. -/
theorem claim_round_survivor_selection (F : ℕ → Cfg → Outcome) (n : ℕ)
    (init : Best × List Cfg) (i : ℕ) :
    ((bracketT F n init (i + 1)).2 =
        selectTop (survCount n i)
          (trainConfigs (F i) (bracketT F n init i).2 (bracketT F n init i).1).results) ∧
      ((survCount n i : ℤ) = ⌊nConfigs n i / eta⌋) ∧
      (∀ rs : List Info, List.Perm (sortResults rs) rs ∧ List.Sorted rewardGe (sortResults rs)) ∧
      (∀ (rs : List Info) (k : ℕ) (a b : Info), a ∈ (sortResults rs).take k →
        b ∈ (sortResults rs).drop k → b.reward ≤ a.reward) ∧
      (∀ (k : ℕ) (rs : List Info), (selectTop k rs).length = min k rs.length) ∧
      (∀ (rs : List Info) (v : ℚ),
        (sortResults rs).filter (fun r => r.reward == v) =
          rs.filter (fun r => r.reward == v)) ∧
      ((bracketT F n init i).2 = [] →
        (trainConfigs (F i) (bracketT F n init i).2 (bracketT F n init i).1).results = [] ∧
          (bracketT F n init (i + 1)).2 = []) ∧
      (survCount n i = 0 → (bracketT F n init (i + 1)).2 = []) := by
  refine ⟨rfl, survCount_eq_floor n i,
    fun rs => ⟨sortResults_perm rs, sortResults_sorted rs⟩,
    fun rs k a b ha hb => (sortResults_sorted rs).rel_of_mem_take_of_mem_drop ha hb,
    length_selectTop, sortResults_filter_reward, ?_, ?_⟩
  · intro h
    constructor
    · rw [h]
      rfl
    · show selectTop _ (trainConfigs (F i) (bracketT F n init i).2 (bracketT F n init i).1).results = []
      rw [h]
      simp [selectTop, sortResults]
  · intro h
    show selectTop (survCount n i) _ = []
    rw [h]
    rfl

/-- Witness for C1: the survivor cutoff of round `0` of a bracket of eight
configurations is the floor of `8 / e`. -/
theorem claim_round_survivor_selection_witness :
    (survCount 8 0 : ℤ) = ⌊nConfigs 8 0 / eta⌋ :=
  (claim_round_survivor_selection (fun _ _ => ⟨false, false, 0, 0⟩) 8 (initBest, []) 0).2.1

theorem log_eta_eq_one : Real.log eta = 1 := Real.log_exp 1

theorem logeta_eq_log (x : ℝ) : logeta x = Real.log x := by
  unfold logeta
  rw [log_eta_eq_one, div_one]

/-- C2: the scheduler derives `eta = e`, `s_max = floor(log_e max_epoch)`,
`B = (s_max + 1) * max_epoch`, and per bracket `s` the initial population
size `n(s) = ceil(B / max_iter / (s+1) * eta^s)` and the initial budget
`r(s) = max_iter * eta^(-s)`.  All of these are Lean functions of
`max_epoch` alone, so identical re-derivation is definitional. -/
theorem claim_budget_derivation (m : ℕ) (h : 1 ≤ m) :
    eta = Real.exp 1 ∧
      sMaxZ m = ⌊Real.logb (Real.exp 1) m⌋ ∧
      (sMax m : ℤ) = sMaxZ m ∧
      (B m : ℝ) = ((sMaxZ m : ℝ) + 1) * (m : ℝ) ∧
      (∀ s : ℕ, nInitZ m s = ⌈(B m : ℝ) / (m : ℝ) / ((s : ℝ) + 1) * eta ^ s⌉) ∧
      (∀ s : ℕ, rInit m s = (m : ℝ) * eta ^ (-(s : ℤ))) := by
  have hm : (1 : ℝ) ≤ (m : ℝ) := by exact_mod_cast h
  have hlog : 0 ≤ Real.log m := Real.log_nonneg hm
  have hsz : sMaxZ m = ⌊Real.log m⌋ := by
    unfold sMaxZ pyInt
    rw [logeta_eq_log, if_pos hlog]
  have hnn : 0 ≤ sMaxZ m := by
    rw [hsz]
    exact Int.floor_nonneg.mpr hlog
  have htn : ((sMax m : ℤ)) = sMaxZ m := Int.toNat_of_nonneg hnn
  refine ⟨rfl, ?_, htn, ?_, fun s => rfl, fun s => rfl⟩
  · rw [hsz, Real.logb, Real.log_exp, div_one]
  · have hcast : ((sMax m : ℝ)) = ((sMaxZ m : ℝ)) := by exact_mod_cast htn
    unfold B
    push_cast
    rw [hcast]

/-- Witness for C2 at `max_epoch = 8`, the worked example of the
specification. -/
theorem claim_budget_derivation_witness :
    (sMax 8 : ℤ) = sMaxZ 8 :=
  (claim_budget_derivation 8 (by norm_num)).2.2.1

theorem digitChar_toNat_sub (d : ℕ) (h : d < 10) :
    (Nat.digitChar d).toNat - Char.toNat (Char.ofNat 48) = d := by
  interval_cases d <;> decide

theorem toDigitsCore_eq_decChars :
    ∀ (fuel n : ℕ) (ds : List Char), n < fuel →
      Nat.toDigitsCore 10 fuel n ds = decChars n ++ ds := by
  intro fuel
  induction fuel with
  | zero => intro n ds h; omega
  | succ fuel ih =>
    intro n ds h
    by_cases h10 : n < 10
    · have hdiv : n / 10 = 0 := Nat.div_eq_of_lt h10
      have hmod : n % 10 = n := Nat.mod_eq_of_lt h10
      rw [Nat.toDigitsCore, decChars]
      simp [hdiv, hmod, h10]
    · have hpos : 0 < n := by omega
      have hlt : n / 10 < fuel :=
        lt_of_lt_of_le (Nat.div_lt_self hpos (by omega)) (by omega)
      have hdiv : ¬ n / 10 = 0 := by
        intro h0
        exact h10 (by omega : n < 10) -- placeholder replaced below
      rw [Nat.toDigitsCore, decChars]
      simp only [h10, dite_false]
      rw [if_neg hdiv, ih (n / 10) _ hlt, List.append_assoc, List.singleton_append]

theorem toDigits_eq_decChars (n : ℕ) : Nat.toDigits 10 n = decChars n := by
  have h := toDigitsCore_eq_decChars (n + 1) n [] (Nat.lt_succ_self n)
  simpa [Nat.toDigits] using h

theorem decChars_ne_nil (n : ℕ) : decChars n ≠ [] := by
  rw [decChars]
  split <;> simp

theorem decChars_all_isDigit (n : ℕ) : ∀ c ∈ decChars n, c.isDigit = true := by
  induction n using Nat.strong_induction_on with
  | _ n ih =>
    rw [decChars]
    split
    · next h =>
      intro c hc
      obtain rfl := List.mem_singleton.mp hc
      interval_cases n <;> decide
    · next h =>
      intro c hc
      rcases List.mem_append.mp hc with h1 | h2
      · exact ih (n / 10) (Nat.div_lt_self (by omega) (by omega)) c h1
      · obtain rfl := List.mem_singleton.mp h2
        have hm : n % 10 < 10 := Nat.mod_lt _ (by omega)
        interval_cases hmc : n % 10 <;> simp_all <;> decide

theorem foldl_decChars (n : ℕ) : ∀ a : ℕ,
    List.foldl (fun acc c => acc * 10 + (c.toNat - Char.toNat (Char.ofNat 48))) a
        (decChars n) =
      a * 10 ^ (decChars n).length + n := by
  induction n using Nat.strong_induction_on with
  | _ n ih =>
    intro a
    rw [decChars]
    split
    · next h =>
      simpa using congrArg (fun x => a * 10 + x) (digitChar_toNat_sub n h)
    · next h =>
      have hlt : n / 10 < n := Nat.div_lt_self (by omega) (by omega)
      have hm : n % 10 < 10 := Nat.mod_lt _ (by omega)
      rw [List.foldl_append, ih (n / 10) hlt a]
      have hdm : n / 10 * 10 + n % 10 = n := by omega
      calc
        List.foldl (fun acc c => acc * 10 + (c.toNat - Char.toNat (Char.ofNat 48)))
            (a * 10 ^ (decChars (n / 10)).length + n / 10) [Nat.digitChar (n % 10)] =
            (a * 10 ^ (decChars (n / 10)).length + n / 10) * 10 + (n % 10) := by
          simp only [List.foldl_cons, List.foldl_nil]
          rw [digitChar_toNat_sub (n % 10) hm]
        _ = a * 10 ^ ((decChars (n / 10)).length + 1) + n := by
          rw [pow_succ]
          calc
            (a * 10 ^ (decChars (n / 10)).length + n / 10) * 10 + n % 10 =
                a * (10 ^ (decChars (n / 10)).length * 10) + (n / 10 * 10 + n % 10) := by
              ring
            _ = a * (10 ^ (decChars (n / 10)).length * 10) + n := by rw [hdm]
        _ = a * 10 ^ (decChars (n / 10) ++ [Nat.digitChar (n % 10)]).length + n := by
          simp

/-- The decimal representation written by the serialiser round-trips
through `String.toNat?`, the parsing core of the `int(k)` key
conversion. -/
theorem toNat?_repr (n : ℕ) : (Nat.repr n).toNat? = some n := by
  have hrepr : Nat.repr n = { data := decChars n } := by
    show (Nat.toDigits 10 n).asString = _
    rw [toDigits_eq_decChars]
    rfl
  rw [hrepr]
  have hne : ({ data := decChars n } : String) ≠ "" := by
    intro hcon
    exact decChars_ne_nil n (congrArg String.data hcon)
  have hempty : ({ data := decChars n } : String).isEmpty = false := by
    cases he : ({ data := decChars n } : String).isEmpty
    · rfl
    · exact absurd ((String.isEmpty_iff _).mp he) hne
  have hall : ({ data := decChars n } : String).all Char.isDigit = true := by
    rw [String.all_eq]
    exact List.all_eq_true.mpr fun c hc => decChars_all_isDigit n c hc
  have hnat : ({ data := decChars n } : String).isNat = true := by
    unfold String.isNat
    rw [hempty, hall]
    rfl
  unfold String.toNat?
  rw [if_pos hnat, String.foldl_eq]
  exact congrArg some (by simpa using foldl_decChars n 0)

theorem pyIntKey_repr (k : ℕ) : pyIntKey (Nat.repr k) = k := by
  unfold pyIntKey
  rw [toNat?_repr]
  rfl

theorem lookup_map_self {α : Type} (g : ℕ → α) :
    ∀ (l : List ℕ) (a : ℕ), a ∈ l → (l.map fun s => (s, g s)).lookup a = some (g a) := by
  intro l
  induction l with
  | nil => intro a ha; exact absurd ha (List.not_mem_nil a)
  | cons s l ih =>
    intro a ha
    by_cases h : a = s
    · subst h
      simp [List.lookup_cons]
    · have h' : (a == s) = false := by simpa using h
      rcases List.mem_cons.mp ha with rfl | ha'
      · simp at h
      · simp [List.lookup_cons, h', ih a ha']

/-- C5: with a persisted search state present, `run` loads it verbatim
(bracket keys converted from their serialised decimal strings back to
integers) and makes no sampling call; without one it samples `n(s)`
parameter sets for every bracket `s` of `s_max .. 0` and persists the
complete state exactly once, after all brackets are generated. -/
theorem claim_state_resume_or_generate (m : ℕ) (env : Env) :
    (∀ st : SearchState, decodeState (encodeState st) = st) ∧
      (∀ raw, env.savedRaw = some raw → decodeState raw ≠ [] →
        step2 env m = (decodeState raw, 0, [])) ∧
      (env.savedRaw = none →
        step2 env m = (genState env m, sampleCount m, [genState env m]) ∧
          (genState env m).map Prod.fst = (List.range (sMax m + 1)).reverse ∧
          (∀ s : ℕ, s ≤ sMax m →
            (genState env m).lookup s =
              some ((List.range (nInitN m s)).map (env.sample s)))) := by
  refine ⟨?_, ?_, ?_⟩
  · intro st
    unfold decodeState encodeState
    rw [List.map_map]
    conv_rhs => rw [← List.map_id st]
    refine List.map_congr_left fun kv _ => ?_
    show (pyIntKey (Nat.repr kv.1), kv.2) = kv
    rw [pyIntKey_repr]
  · intro raw hraw hne
    unfold step2 loadState
    rw [hraw]
    simp [hne]
  · intro hnone
    refine ⟨by unfold step2 loadState; rw [hnone]; rfl, ?_, ?_⟩
    · unfold genState
      rw [List.map_map]
      exact List.map_id _
    · intro s hs
      unfold genState
      exact lookup_map_self _ _ s (by
        rw [List.mem_reverse, List.mem_range]
        omega)

/-- Witness for C5: a single-bracket state round-trips through the
serialised form and is then resumed without sampling. -/
theorem claim_state_resume_or_generate_witness :
    step2 ⟨false, some (encodeState [(0, [[("a", "1")]])]),
        fun _ _ => [], fun _ _ _ => ⟨false, false, 0, 0⟩⟩ 1 =
      (decodeState (encodeState [(0, [[("a", "1")]])]), 0, []) :=
  (claim_state_resume_or_generate 1 _).2.1 (encodeState [(0, [[("a", "1")]])]) rfl
    (by
      rw [(claim_state_resume_or_generate 1 ⟨false, some (encodeState [(0, [[("a", "1")]])]),
        fun _ _ => [], fun _ _ _ => ⟨false, false, 0, 0⟩⟩).1 [(0, [[("a", "1")]])]]
      decide)

/-- C6: when the best-configuration marker already exists, `run` terminates
immediately with no training calls, no state generation and no writes. -/
theorem claim_best_marker_short_circuit (m : ℕ) (configDict : Params)
    (model data : String) (env : Env) (h : env.bestExists = true) :
    hyperbandRun m configDict model data env =
      { state := [], sampleCalls := 0, saves := [], fitCalls := 0
        best := initBest, links := [] } := by
  unfold hyperbandRun
  rw [if_pos h]

/-- Witness for C6: a concrete completed run is a no-op. -/
theorem claim_best_marker_short_circuit_witness :
    hyperbandRun 8 [] "m" "d"
        ⟨true, none, fun _ _ => [], fun _ _ _ => ⟨false, false, 0, 0⟩⟩ =
      { state := [], sampleCalls := 0, saves := [], fitCalls := 0
        best := initBest, links := [] } :=
  claim_best_marker_short_circuit 8 [] "m" "d"
    ⟨true, none, fun _ _ => [], fun _ _ _ => ⟨false, false, 0, 0⟩⟩ rfl

/-- C10: during bracket materialisation, a key present both in the sampled
parameter set and in the fixed hyperparameter defaults receives the value
of the defaults, while the canonical name of the saved configuration is
computed from the sampled parameters before this merge and therefore never
reflects the merged-in default values. -/
theorem claim_materialize_defaults_win_name_premerge
    (configDict : Params) (model data : String) (p : Params) (k : String)
    (_hp : (p.lookup k).isSome) (hcd : (configDict.lookup k).isSome) :
    (materialize configDict model data p).params.lookup k = configDict.lookup k ∧
      (materialize configDict model data p).name = getName p ∧
      ∀ configDict',
        (materialize configDict' model data p).name =
          (materialize configDict model data p).name :=
  ⟨lookup_pyUpdate p configDict k hcd, rfl, fun _ => rfl⟩

/-- Witness for C10: the default value `lr=0.5` overwrites the sampled
`lr=0.1`, while the saved name still renders the sampled value. -/
theorem claim_materialize_defaults_win_name_premerge_witness :
    (materialize [("lr", "0.5")] "m" "d" [("a", "1"), ("lr", "0.1")]).params.lookup "lr" =
        some "0.5" ∧
      (materialize [("lr", "0.5")] "m" "d" [("a", "1"), ("lr", "0.1")]).name =
        getName [("a", "1"), ("lr", "0.1")] :=
  ⟨(claim_materialize_defaults_win_name_premerge [("lr", "0.5")] "m" "d"
      [("a", "1"), ("lr", "0.1")] "lr" (by decide) (by decide)).1.trans (by decide),
    (claim_materialize_defaults_win_name_premerge [("lr", "0.5")] "m" "d"
      [("a", "1"), ("lr", "0.1")] "lr" (by decide) (by decide)).2.1⟩

end Hyperband
